import Mathlib

/-!
Shallow embedding of the guardrail check-generation and evaluation pipeline
(src/guardrail/evaluate.py, src/guardrail/checks.py, src/guardrail/blast.py,
src/guardrail/config.py), together with theorems settling the specification
claims about it.
-/

namespace Guardrail

/-- The single-quote character, written via its code point exactly as the
source does (`chr(39)`). -/
def sq : Char := Char.ofNat 39

/-- The one-character string holding a single quote. -/
def sqStr : String := String.mk [sq]

/-- A value in a result row.  The execution client returns integers, decimal
numbers (modelled as exact rationals) and strings.  Numeric coercion of
strings is not modelled; the generated queries only put numbers in the
numeric columns. -/
inductive Value where
  | int (n : Int)
  | rat (q : Rat)
  | str (s : String)
deriving DecidableEq, Repr

/-- A result row: a mapping from column name to value (a `dict` in the
source), modelled as an association list. -/
abbrev Row := List (String × Value)

/-- `row.get(key, default)` on a result row. -/
def rowGet (row : Row) (key : String) (dflt : Value) : Value :=
  match row.find? (fun p => p.1 == key) with
  | some p => p.2
  | none => dflt

/-- `float(v)`: numeric reading of a row value. -/
def Value.toRat : Value → Rat
  | .int n => (n : Rat)
  | .rat q => q
  | .str _ => 0

/-- `v > 0` on a row value (comparison of a string with a number is not a
defined operation in the source language; it is modelled as false). -/
def Value.gtZero : Value → Bool
  | .int n => decide (0 < n)
  | .rat q => decide (0 < q)
  | .str _ => false

/-- `v == 0` on a row value (a string never equals a number). -/
def Value.eqZero : Value → Bool
  | .int n => n == 0
  | .rat q => q == 0
  | .str _ => false

/-- Group a digit list (least-significant first) into blocks of three, for
thousands separators. -/
def chunk3 : List Char → List (List Char)
  | [] => []
  | a :: b :: c :: rest => [a, b, c] :: chunk3 rest
  | l => [l]

/-- The `{:,}` format: decimal rendering with thousands separators. -/
def commaFmt (n : Int) : String :=
  let sign := if n < 0 then "-" else ""
  let ds := (Nat.repr n.natAbs).data
  let groups := ((chunk3 ds.reverse).map List.reverse).reverse
  sign ++ String.mk (List.intercalate [','] groups)

/-- Render a row value with thousands separators (`{v:,}` in the source);
the decimal rendering of non-integer numbers is modelled by the rational
printer. -/
def Value.renderComma : Value → String
  | .int n => commaFmt n
  | .rat q => toString q
  | .str s => s

/-- Render a row value plainly (`{v}` in the source). -/
def Value.render : Value → String
  | .int n => toString n
  | .rat q => toString q
  | .str s => s

/-- Evaluation thresholds (src/guardrail/config.py), with the source's
default cutoffs.  Rates are exact rationals. -/
structure Thresholds where
  null_rate_fail : Rat := 5 / 100
  null_rate_warn : Rat := 1 / 1000
  fk_match_rate_fail : Rat := 95 / 100
  fk_match_rate_warn : Rat := 99 / 100
deriving DecidableEq, Repr

/-- A metadata value on a check: a string or a list of column names. -/
inductive MetaVal where
  | str (s : String)
  | list (l : List String)
deriving DecidableEq, Repr

/-- A generated check specification (src/guardrail/checks.py). -/
structure Check where
  category : String
  model : String
  check : String
  sql : String
  importance : String
  metadata : Option (List (String × MetaVal)) := none
  sample_sql : Option String := none
deriving DecidableEq, Repr

/-- The result of evaluating one check (src/guardrail/evaluate.py). -/
structure CheckResult where
  status : String
  category : String
  model : String
  check : String
  detail : String
  importance : String
  raw_data : Option (List Row) := none
deriving DecidableEq, Repr

/-- `check.metadata.get("column", "unknown") if check.metadata else "unknown"`. -/
def metaColumn (metadata : Option (List (String × MetaVal))) : String :=
  match metadata with
  | none => "unknown"
  | some m =>
    match m.find? (fun p => p.1 == "column") with
    | some (_, MetaVal.str s) => s
    | some (_, MetaVal.list _) => "unknown"
    | none => "unknown"

def _evaluate_pk_duplicates (check : Check) (rows : List Row)
    (_thresholds : Thresholds) : CheckResult :=
  match rows with
  | [] =>
    { status := "PASS", category := check.category, model := check.model,
      check := check.check, detail := "No data returned",
      importance := check.importance }
  | row :: _ =>
    let dupes := rowGet row "DUPLICATE_COUNT" (rowGet row "duplicate_count" (Value.int 0))
    let total := rowGet row "TOTAL_ROWS" (rowGet row "total_rows" (Value.int 0))
    let col := metaColumn check.metadata
    if dupes.gtZero then
      { status := "FAIL", category := check.category, model := check.model,
        check := check.check,
        detail := dupes.renderComma ++ " duplicate " ++ col ++ " values out of "
          ++ total.renderComma ++ " rows",
        importance := check.importance, raw_data := some rows }
    else
      { status := "PASS", category := check.category, model := check.model,
        check := check.check,
        detail := "0 duplicate " ++ col ++ " values out of "
          ++ total.renderComma ++ " rows",
        importance := check.importance, raw_data := some rows }

def _evaluate_null_rate (check : Check) (rows : List Row)
    (thresholds : Thresholds) : CheckResult :=
  match rows with
  | [] =>
    { status := "PASS", category := check.category, model := check.model,
      check := check.check, detail := "No data returned",
      importance := check.importance }
  | row :: _ =>
    let null_pct := (rowGet row "NULL_PCT" (rowGet row "null_pct" (Value.int 0))).toRat
    let null_count := rowGet row "NULL_COUNT" (rowGet row "null_count" (Value.int 0))
    let total := rowGet row "TOTAL_ROWS" (rowGet row "total_rows" (Value.int 0))
    let col := metaColumn check.metadata
    let rate := null_pct / 100
    let status :=
      if rate > thresholds.null_rate_fail then "FAIL"
      else if rate > thresholds.null_rate_warn then "WARN"
      else "PASS"
    { status := status, category := check.category, model := check.model,
      check := check.check,
      detail := null_count.renderComma ++ " nulls in " ++ col ++ " ("
        ++ toString null_pct ++ "%) out of " ++ total.renderComma ++ " rows",
      importance := check.importance, raw_data := some rows }

def _evaluate_unexpected_values (check : Check) (rows : List Row)
    (_thresholds : Thresholds) : CheckResult :=
  match rows with
  | [] =>
    { status := "PASS", category := check.category, model := check.model,
      check := check.check, detail := "No unexpected values found",
      importance := check.importance }
  | _ :: _ =>
    let unexpected := rows.map (fun row =>
      let val := rowGet row "UNEXPECTED_VALUE" (rowGet row "unexpected_value" (Value.str "?"))
      let count := rowGet row "ROW_COUNT" (rowGet row "row_count" (Value.int 0))
      sqStr ++ val.render ++ sqStr ++ " (" ++ count.renderComma ++ " rows)")
    let detail := toString rows.length ++ " unexpected value(s): "
      ++ String.intercalate ", " unexpected
    { status := "WARN", category := check.category, model := check.model,
      check := check.check, detail := detail,
      importance := check.importance, raw_data := some rows }

/-- Distribution checks always PASS: they are informational. -/
def _evaluate_value_distribution (check : Check) (rows : List Row)
    (_thresholds : Thresholds) : CheckResult :=
  let col := metaColumn check.metadata
  let n_values := rows.length
  { status := "PASS", category := check.category, model := check.model,
    check := check.check,
    detail := toString n_values ++ " distinct values in " ++ col,
    importance := check.importance, raw_data := some rows }

def _evaluate_fk_match_rate (check : Check) (rows : List Row)
    (thresholds : Thresholds) : CheckResult :=
  match rows with
  | [] =>
    { status := "PASS", category := check.category, model := check.model,
      check := check.check, detail := "No data returned",
      importance := check.importance }
  | row :: _ =>
    let match_pct := (rowGet row "MATCH_PCT" (rowGet row "match_pct" (Value.int 100))).toRat
    let parent := rowGet row "PARENT_MODEL" (rowGet row "parent_model" (Value.str "unknown"))
    let child_rows := rowGet row "CHILD_ROWS" (rowGet row "child_rows" (Value.int 0))
    let matched := rowGet row "MATCHED_ROWS" (rowGet row "matched_rows" (Value.int 0))
    let rate := match_pct / 100
    let status :=
      if rate < thresholds.fk_match_rate_fail then "FAIL"
      else if rate < thresholds.fk_match_rate_warn then "WARN"
      else "PASS"
    { status := status, category := check.category, model := check.model,
      check := check.check,
      detail := matched.renderComma ++ "/" ++ child_rows.renderComma
        ++ " rows match " ++ parent.render ++ " (" ++ toString match_pct ++ "%)",
      importance := check.importance, raw_data := some rows }

def _evaluate_row_count (check : Check) (rows : List Row)
    (_thresholds : Thresholds) : CheckResult :=
  match rows with
  | [] =>
    { status := "FAIL", category := check.category, model := check.model,
      check := check.check, detail := "No data returned",
      importance := check.importance }
  | row :: _ =>
    let count := rowGet row "ROW_COUNT" (rowGet row "row_count" (Value.int 0))
    let status := if count.eqZero then "FAIL" else "PASS"
    { status := status, category := check.category, model := check.model,
      check := check.check, detail := count.renderComma ++ " rows",
      importance := check.importance, raw_data := some rows }

def _evaluate_default (check : Check) (rows : List Row)
    (_thresholds : Thresholds) : CheckResult :=
  { status := "PASS", category := check.category, model := check.model,
    check := check.check,
    detail := toString rows.length ++ " row(s) returned",
    importance := check.importance, raw_data := some rows }

/-- Evaluate a check's SQL results and produce a PASS/WARN/FAIL result.
The `_EVALUATORS` dictionary dispatch of the source is modelled as a
conditional chain over the six known check names, with `_evaluate_default`
as the dictionary-miss fallback. -/
def evaluate_check (check : Check) (rows : List Row)
    (thresholds : Option Thresholds := none) : CheckResult :=
  let th := thresholds.getD {}
  if check.check = "pk_duplicates" then _evaluate_pk_duplicates check rows th
  else if check.check = "null_rate" then _evaluate_null_rate check rows th
  else if check.check = "unexpected_values" then _evaluate_unexpected_values check rows th
  else if check.check = "value_distribution" then _evaluate_value_distribution check rows th
  else if check.check = "fk_match_rate" then _evaluate_fk_match_rate check rows th
  else if check.check = "row_count" then _evaluate_row_count check rows th
  else _evaluate_default check rows th

/-- A check result with its raw rows dropped: the evaluators echo the input
rows verbatim in `raw_data`, so comparisons across differently-keyed rows
are made on the remaining fields. -/
def sansRaw (r : CheckResult) : CheckResult :=
  { r with raw_data := none }

/-! ### Check generation (src/guardrail/checks.py) -/

/-- Model metadata extracted from the manifest (src/guardrail/manifest.py). -/
structure ModelMeta where
  unique_id : String
  name : String
  original_file_path : String := ""
  relation_name : String := ""
  database : String := ""
  schema : String := ""
  materialized : String := ""
  columns : List String := []
  tags : List String := []
  unique_tests : List String := []
  not_null_tests : List String := []
  accepted_values_tests : List (String × List String) := []
  depends_on_models : List String := []
  child_models : List String := []
  raw_code : String := ""
deriving DecidableEq, Repr

/-- The manifest's model table keyed by unique id (the `_models` dict of
src/guardrail/manifest.py), as an association list. -/
abbrev Manifest := List (String × ModelMeta)

/-- `manifest.get_model(unique_id)`. -/
def get_model (manifest : Manifest) (unique_id : String) : Option ModelMeta :=
  match manifest.find? (fun p => p.1 == unique_id) with
  | some p => some p.2
  | none => none

/-- Per-child, per-parent join-key overrides
(`join_key_overrides : dict[str, dict[str, list[str]]]`). -/
abbrev JoinOverrides := List (String × List (String × List String))

/-- `join_key_overrides.get(child_name, {}).get(parent_name)`. -/
def getOverrideKeys (ov : JoinOverrides) (child_name parent_name : String) :
    Option (List String) :=
  match ov.find? (fun p => p.1 == child_name) with
  | none => none
  | some p =>
    match p.2.find? (fun q => q.1 == parent_name) with
    | none => none
    | some q => some q.2

/-- `v.replace(chr(39), chr(39) + chr(39))`: double every single quote,
character by character. -/
def escapeChars (cs : List Char) : List Char :=
  cs.flatMap (fun c => if c = sq then [sq, sq] else [c])

/-- String-level quote doubling of an expected value. -/
def escapeSq (v : String) : String :=
  String.mk (escapeChars v.data)

/-- `", ".join(parts)`, at the character level. -/
def joinCommaSpace : List (List Char) → List Char
  | [] => []
  | [v] => v
  | v :: rest => v ++ ',' :: ' ' :: joinCommaSpace rest

/-- The quoted literal list embedded in the `unexpected_values` query:
`", ".join(f"'{v.replace(chr(39), chr(39)+chr(39))}'" for v in expected_values)`. -/
def quotedLiterals (expected_values : List String) : String :=
  String.mk (joinCommaSpace (expected_values.map
    (fun v => sq :: escapeChars v.data ++ [sq])))

/-- Generate value distribution and unexpected value checks from
accepted_values tests. -/
def _distribution_checks (meta : ModelMeta) : List Check :=
  meta.accepted_values_tests.flatMap (fun p =>
    let col := p.1
    let expected_values := p.2
    [{ category := "distribution", model := meta.name,
       check := "value_distribution",
       sql := "SELECT " ++ col ++ " AS value, COUNT(*) AS row_count, "
         ++ "ROUND(COUNT(*) * 100.0 / SUM(COUNT(*)) OVER (), 2) AS pct FROM "
         ++ meta.relation_name ++ " GROUP BY " ++ col
         ++ " ORDER BY row_count DESC",
       importance := "NORMAL",
       metadata := some [("column", MetaVal.str col),
                         ("expected_values", MetaVal.list expected_values)] },
     { category := "distribution", model := meta.name,
       check := "unexpected_values",
       sql := "SELECT " ++ col ++ " AS unexpected_value, COUNT(*) AS row_count FROM "
         ++ meta.relation_name ++ " WHERE " ++ col ++ " NOT IN ("
         ++ quotedLiterals expected_values ++ ") AND " ++ col
         ++ " IS NOT NULL GROUP BY " ++ col ++ " ORDER BY row_count DESC",
       importance := "HIGH",
       metadata := some [("column", MetaVal.str col),
                         ("expected_values", MetaVal.list expected_values)] }])

/-- The sample-row limit (`SAMPLE_LIMIT = 5`). -/
def SAMPLE_LIMIT : Nat := 5

/-- Generate FK match rate checks against parent models. -/
def _join_checks (manifest : Manifest) (meta : ModelMeta)
    (join_key_overrides : JoinOverrides) : List Check :=
  meta.depends_on_models.flatMap (fun parent_uid =>
    match get_model manifest parent_uid with
    | none => []
    | some parent =>
      let override_keys := getOverrideKeys join_key_overrides meta.name parent.name
      let inferred := parent.unique_tests.filter (fun c => meta.columns.contains c)
      let join_cols :=
        match override_keys with
        | some l => if l.isEmpty then inferred else l
        | none => inferred
      match join_cols with
      | [] => []
      | j0 :: _ =>
        let join_cond := String.intercalate " AND "
          (join_cols.map (fun col => "c." ++ col ++ " = p." ++ col))
        let join_col_str := String.intercalate ", " join_cols
        let sample_select := String.intercalate ", "
          (join_cols.map (fun col => "c." ++ col))
        [{ category := "join", model := meta.name, check := "fk_match_rate",
           sql := "SELECT " ++ sqStr ++ parent.name ++ sqStr
             ++ " AS parent_model, " ++ sqStr ++ join_col_str ++ sqStr
             ++ " AS join_keys, COUNT(*) AS child_rows, SUM(CASE WHEN p."
             ++ j0 ++ " IS NOT NULL THEN 1 ELSE 0 END) AS matched_rows, "
             ++ "ROUND(SUM(CASE WHEN p." ++ j0
             ++ " IS NOT NULL THEN 1 ELSE 0 END) * 100.0 / NULLIF(COUNT(*), 0), 2) AS match_pct FROM "
             ++ meta.relation_name ++ " c LEFT JOIN " ++ parent.relation_name
             ++ " p ON " ++ join_cond,
           importance := "NORMAL",
           metadata := some [("parent", MetaVal.str parent.name),
                             ("join_cols", MetaVal.list join_cols)],
           sample_sql := some ("SELECT " ++ sample_select
             ++ ", COUNT(*) AS unmatched_rows FROM " ++ meta.relation_name
             ++ " c LEFT JOIN " ++ parent.relation_name ++ " p ON " ++ join_cond
             ++ " WHERE p." ++ j0 ++ " IS NULL GROUP BY " ++ sample_select
             ++ " ORDER BY unmatched_rows DESC LIMIT " ++ toString SAMPLE_LIMIT) }])

/-- The `join_cols` metadata recorded on a generated check. -/
def checkJoinCols (c : Check) : Option MetaVal :=
  match c.metadata with
  | none => none
  | some m =>
    match m.find? (fun p => p.1 == "join_cols") with
    | some p => some p.2
    | none => none

/-! ### Re-parsing the quoted literal list (specified round-trip for C8) -/

/-- The scanning loop of the literal-list re-parser.  The scanner is inside
a single-quoted literal whose content so far is `cur`, with the literals
already completed in `acc`.  A quote followed by another quote is an escaped
quote; a quote followed by end of input closes the last literal; a quote
followed by `, ` and an opening quote starts the next literal; anything else
after a closing quote is a parse error. -/
def plAux : List Char → List Char → List (List Char) → Option (List (List Char))
  | [], _, _ => none
  | c :: rest, cur, acc =>
    if c = sq then
      match rest with
      | [] => some (acc ++ [cur])
      | c2 :: rest2 =>
        if c2 = sq then
          plAux rest2 (cur ++ [sq]) acc
        else
          match rest2 with
          | c3 :: c4 :: rest4 =>
            if c2 = ',' then
              if c3 = ' ' then
                if c4 = sq then plAux rest4 [] (acc ++ [cur]) else none
              else none
            else none
          | _ => none
    else
      plAux rest (cur ++ [c]) acc

/-- Parse a non-empty comma-space-separated list of single-quoted literals,
un-doubling `''` inside each literal. -/
def parseLitsCore (cs : List Char) : Option (List (List Char)) :=
  match cs with
  | [] => none
  | c :: rest => if c = sq then plAux rest [] [] else none

/-- Re-parse a quoted literal list back into the list of values. -/
def parseQuotedList (s : String) : Option (List String) :=
  if s = "" then some []
  else
    match parseLitsCore s.data with
    | some l => some (l.map String.mk)
    | none => none

/-! ### Blast radius (src/guardrail/blast.py) -/

/-- Lexicographic strict comparison of character lists by code point,
the order `sorted` uses on strings. -/
def lexLt : List Char → List Char → Bool
  | [], [] => false
  | [], _ :: _ => true
  | _ :: _, [] => false
  | a :: as, b :: bs =>
    if a < b then true
    else if b < a then false
    else lexLt as bs

/-- Strict string comparison by code point. -/
def strLt (a b : String) : Bool := lexLt a.data b.data

/-- Non-strict string comparison by code point. -/
def strLe (a b : String) : Bool := !(strLt b a)

/-- The manifest child-adjacency map (`child_map : dict[str, list[str]]`),
as an association list. -/
abbrev ChildMap := List (String × List String)

/-- `child_map.get(uid, [])`. -/
def getChildren (cm : ChildMap) (uid : String) : List String :=
  match cm.find? (fun p => p.1 == uid) with
  | some p => p.2
  | none => []

/-- `uid.startswith("model.")`, expressed on the underlying character
list. -/
def isModelId (s : String) : Bool :=
  List.isPrefixOf "model.".data s.data

/-- The inner enqueue loop of the BFS: walk the children of one node,
enqueueing each model-typed child that is not yet visited and marking it
visited.  The visited set is modelled as a list used only through
membership. -/
def enqueueChildren (children : List String) (depth : Nat)
    (visited : List String) (queue : List (String × Nat)) :
    List String × List (String × Nat) :=
  match children with
  | [] => (visited, queue)
  | c :: rest =>
    if isModelId c && !(visited.contains c) then
      enqueueChildren rest depth (c :: visited) (queue ++ [(c, depth)])
    else
      enqueueChildren rest depth visited queue

/-- The seeding phase: enqueue every seed's model-typed children at depth 1. -/
def initQueue (cm : ChildMap) (seeds : List String)
    (visited : List String) (queue : List (String × Nat)) :
    List String × List (String × Nat) :=
  match seeds with
  | [] => (visited, queue)
  | s :: rest =>
    let vq := enqueueChildren (getChildren cm s) 1 visited queue
    initQueue cm rest vq.1 vq.2

/-- Every id occurring as a child anywhere in the adjacency map. -/
def allChildren (cm : ChildMap) : List String :=
  cm.flatMap (fun p => p.2)

/-- An upper bound on the number of loop iterations: the total number of
child occurrences in the adjacency map. -/
def totalChildren (cm : ChildMap) : Nat :=
  (allChildren cm).length

/-- The BFS `while queue:` loop.  Each iteration dequeues one node, records
it downstream (with its depth, projected away by `compute_blast_radius`),
and expands its children unless the node sits at or beyond the depth bound.
The loop is bounded by explicit fuel; `bfsLoop_isSome` below proves the
fuel used by `compute_blast_radius` is never exhausted, which is exactly
the termination of the source's unbounded loop. -/
def bfsLoop (cm : ChildMap) (maxDepth : Nat) :
    Nat → List String → List (String × Nat) → List (String × Nat) →
    Option (List (String × Nat))
  | _, _, [], downstream => some downstream
  | 0, _, _ :: _, _ => none
  | fuel + 1, visited, (uid, depth) :: rest, downstream =>
    let ds := downstream ++ [(uid, depth)]
    if maxDepth ≤ depth then
      bfsLoop cm maxDepth fuel visited rest ds
    else
      let vq := enqueueChildren (getChildren cm uid) (depth + 1) visited rest
      bfsLoop cm maxDepth fuel vq.1 vq.2 ds

/-- BFS over `child_map` to find all downstream models affected by changes.
Returns the sorted unique ids of downstream models (excluding the input
models themselves); only `model.` nodes are included. -/
def compute_blast_radius (cm : ChildMap) (model_ids : List String)
    (max_depth : Nat := 10) : List String :=
  let vq := initQueue cm model_ids model_ids []
  match bfsLoop cm max_depth (totalChildren cm) vq.1 vq.2 [] with
  | some downstream =>
    List.insertionSort (fun a b => strLe a b = true) (downstream.map Prod.fst)
  | none => []

/-- A path of length `n ≥ 1` from node `u` along child edges whose targets
are all model-typed. -/
inductive ReachFrom (cm : ChildMap) : String → Nat → String → Prop
  | single {u c : String} (hc : c ∈ getChildren cm u) (hm : isModelId c = true) :
      ReachFrom cm u 1 c
  | cons {u c x : String} {n : Nat} (hc : c ∈ getChildren cm u)
      (hm : isModelId c = true) (hr : ReachFrom cm c n x) :
      ReachFrom cm u (n + 1) x

/-- `x` is reachable from some seed along model-typed child edges in
exactly `n` steps. -/
def ReachN (cm : ChildMap) (seeds : List String) (n : Nat) (x : String) : Prop :=
  ∃ s ∈ seeds, ReachFrom cm s n x

/-- The shortest model-edge distance of `x` from the seed set is exactly
`d`: a seed is at distance 0; a non-seed is at distance `d` when some
length-`d` model path from a seed reaches it and no shorter one does. -/
def distEq (cm : ChildMap) (seeds : List String) (x : String) (d : Nat) : Prop :=
  (d = 0 ∧ x ∈ seeds) ∨
  (x ∉ seeds ∧ ReachN cm seeds d x ∧ ∀ m, ReachN cm seeds m x → d ≤ m)

/-- The shortest model-edge distance of `x` from the seed set exceeds `d`
(in particular when no distance exists at all, i.e. `x` is unreachable). -/
def distGt (cm : ChildMap) (seeds : List String) (x : String) (d : Nat) : Prop :=
  ∀ e, distEq cm seeds x e → d < e

/-- The invariant maintained by the BFS loop.  `vis` is the visited set,
`q` the pending queue (with recorded depths), `ds` the downstream list (with
the depth each node was dequeued at). -/
structure BfsInv (cm : ChildMap) (seeds : List String) (maxd : Nat)
    (vis : List String) (q : List (String × Nat)) (ds : List (String × Nat)) :
    Prop where
  seeds_vis : ∀ s ∈ seeds, s ∈ vis
  vis_cover : ∀ v ∈ vis, v ∈ seeds ∨ ∃ d, (v, d) ∈ ds ++ q
  elems : ∀ p ∈ ds ++ q, p.1 ∈ vis ∧ p.1 ∉ seeds ∧ isModelId p.1 = true
  nodups : ((ds ++ q).map Prod.fst).Nodup
  bounds : ∀ p ∈ ds ++ q, 1 ≤ p.2 ∧ p.2 ≤ max maxd 1
  sound : ∀ p ∈ ds ++ q, ReachN cm seeds p.2 p.1
  mono : ((ds ++ q).map Prod.snd).Sorted (· ≤ ·)
  gap : ∀ p ∈ q, ∀ r ∈ q, p.2 ≤ r.2 + 1
  complete : ∀ n x, ReachN cm seeds n x → n ≤ max maxd 1 →
    x ∈ vis ∨ ∃ p ∈ q, ∃ k, 1 ≤ k ∧ ReachFrom cm p.1 k x ∧ p.2 + k ≤ n

/-! ### Support values for the claim theorems -/


def rowCountCheck : Check :=
  { category := "rowcount", model := "m", check := "row_count",
    sql := "SELECT COUNT(*) AS row_count FROM t", importance := "NORMAL" }

def nullRateRow (pct : Rat) (nc tr : Value) : Row :=
  [("NULL_PCT", Value.rat pct), ("NULL_COUNT", nc), ("TOTAL_ROWS", tr)]

def fkRateRow (pct : Rat) (pm cr mr : Value) : Row :=
  [("MATCH_PCT", Value.rat pct), ("PARENT_MODEL", pm), ("CHILD_ROWS", cr),
   ("MATCHED_ROWS", mr)]


def nullRateCheck : Check :=
  { category := "grain", model := "m", check := "null_rate", sql := "",
    importance := "HIGH", metadata := some [("column", MetaVal.str "user_id")] }

def fkRateCheck : Check :=
  { category := "join", model := "m", check := "fk_match_rate", sql := "",
    importance := "NORMAL" }

def uvCheck : Check :=
  { category := "distribution", model := "m", check := "unexpected_values",
    sql := "", importance := "HIGH" }

def vdCheck : Check :=
  { category := "distribution", model := "m", check := "value_distribution",
    sql := "", importance := "NORMAL" }

def metaW : ModelMeta :=
  { unique_id := "model.proj.dim_status", name := "dim_status",
    relation_name := "db.schema.dim_status",
    accepted_values_tests := [("status", ["active", "in" ++ sqStr ++ "active"])] }

def parentW : ModelMeta :=
  { unique_id := "model.proj.stg_users", name := "stg_users",
    relation_name := "db.s.stg_users", columns := ["order_id", "email"],
    unique_tests := ["order_id"] }

def manifestW : Manifest := [("model.proj.stg_users", parentW)]

def childW : ModelMeta :=
  { unique_id := "model.proj.fact_orders", name := "fact_orders",
    relation_name := "db.s.fact_orders", columns := ["order_id", "user_id"],
    depends_on_models := ["model.proj.stg_users"] }

def ovW : JoinOverrides := [("fact_orders", [("stg_users", ["user_id"])])]

/-! ## Claim theorems -/
theorem c1_counterexample :
    (evaluate_check rowCountCheck [[("Row_Count", Value.int 5)]] none).status = "FAIL" ∧
    (evaluate_check rowCountCheck [[("ROW_COUNT", Value.int 5)]] none).status = "PASS" ∧
    evaluate_check rowCountCheck [[("ROW_COUNT", Value.int 5)]] none ≠
      evaluate_check rowCountCheck [[("row_count", Value.int 5)]] none := by
  refine ⟨by decide, by decide, by decide⟩

/-- C1 amended: for each evaluated check, a result row keyed with the
all-uppercase field names and the same row keyed with the all-lowercase
field names yield the same field values and the same `CheckResult` in every
field except the echoed `raw_data` rows; other casings are not matched. -/
theorem c1_amended (c : Check) (thr : Option Thresholds)
    (a b p nc tr mp pm cr mr rc uv uc : Value) :
    sansRaw (evaluate_check { c with check := "pk_duplicates" }
        [[("DUPLICATE_COUNT", a), ("TOTAL_ROWS", b)]] thr) =
      sansRaw (evaluate_check { c with check := "pk_duplicates" }
        [[("duplicate_count", a), ("total_rows", b)]] thr) ∧
    sansRaw (evaluate_check { c with check := "null_rate" }
        [[("NULL_PCT", p), ("NULL_COUNT", nc), ("TOTAL_ROWS", tr)]] thr) =
      sansRaw (evaluate_check { c with check := "null_rate" }
        [[("null_pct", p), ("null_count", nc), ("total_rows", tr)]] thr) ∧
    sansRaw (evaluate_check { c with check := "unexpected_values" }
        [[("UNEXPECTED_VALUE", uv), ("ROW_COUNT", uc)]] thr) =
      sansRaw (evaluate_check { c with check := "unexpected_values" }
        [[("unexpected_value", uv), ("row_count", uc)]] thr) ∧
    sansRaw (evaluate_check { c with check := "value_distribution" }
        [[("VALUE", a)]] thr) =
      sansRaw (evaluate_check { c with check := "value_distribution" }
        [[("value", a)]] thr) ∧
    sansRaw (evaluate_check { c with check := "fk_match_rate" }
        [[("MATCH_PCT", mp), ("PARENT_MODEL", pm), ("CHILD_ROWS", cr),
          ("MATCHED_ROWS", mr)]] thr) =
      sansRaw (evaluate_check { c with check := "fk_match_rate" }
        [[("match_pct", mp), ("parent_model", pm), ("child_rows", cr),
          ("matched_rows", mr)]] thr) ∧
    sansRaw (evaluate_check { c with check := "row_count" }
        [[("ROW_COUNT", rc)]] thr) =
      sansRaw (evaluate_check { c with check := "row_count" }
        [[("row_count", rc)]] thr) := by
  refine ⟨?_, ?_, ?_, ?_, ?_, ?_⟩ <;>
    simp [evaluate_check, _evaluate_pk_duplicates, _evaluate_null_rate,
      _evaluate_unexpected_values, _evaluate_value_distribution,
      _evaluate_fk_match_rate, _evaluate_row_count, sansRaw, rowGet] <;>
    split_ifs <;> simp

/-- C2: for null_rate evaluation with non-empty rows and warn cutoff
strictly below fail cutoff, a rate exactly equal to the warn threshold
yields PASS, a rate exactly equal to the fail threshold yields WARN, and
FAIL occurs exactly when the rate strictly exceeds the fail threshold. -/
theorem c2_null_rate_boundaries (chk : Check) (hc : chk.check = "null_rate")
    (thr : Thresholds) (hw : thr.null_rate_warn < thr.null_rate_fail)
    (pct : Rat) (nc tr : Value) (rest : List Row) :
    ((pct / 100 = thr.null_rate_warn →
      (evaluate_check chk (nullRateRow pct nc tr :: rest) (some thr)).status = "PASS") ∧
     (pct / 100 = thr.null_rate_fail →
      (evaluate_check chk (nullRateRow pct nc tr :: rest) (some thr)).status = "WARN") ∧
     ((evaluate_check chk (nullRateRow pct nc tr :: rest) (some thr)).status = "FAIL" ↔
      thr.null_rate_fail < pct / 100)) := by
  have hstat : (evaluate_check chk (nullRateRow pct nc tr :: rest) (some thr)).status =
      (if thr.null_rate_fail < pct / 100 then "FAIL"
       else if thr.null_rate_warn < pct / 100 then "WARN" else "PASS") := by
    simp only [evaluate_check, hc]
    simp [_evaluate_null_rate, nullRateRow, rowGet, Value.toRat]
  rw [hstat]
  refine ⟨?_, ?_, ?_⟩
  · intro h
    rw [if_neg (by rw [h]; exact not_lt.mpr hw.le), if_neg (by rw [h]; exact lt_irrefl _)]
  · intro h
    rw [if_neg (by rw [h]; exact lt_irrefl _), if_pos (by rw [h]; exact hw)]
  · constructor
    · intro h
      by_contra hlt
      rw [if_neg hlt] at h
      split_ifs at h <;> simp_all
    · intro h
      rw [if_pos h]


/-- C3: for fk_match_rate evaluation with non-empty rows and fail cutoff
strictly below warn cutoff, the comparison direction is inverted relative
to null_rate: a rate strictly below the fail threshold yields FAIL, a rate
exactly equal to the fail threshold yields WARN, and a rate at or above the
warn threshold yields PASS. -/
theorem c3_fk_match_rate_boundaries (chk : Check) (hc : chk.check = "fk_match_rate")
    (thr : Thresholds) (hw : thr.fk_match_rate_fail < thr.fk_match_rate_warn)
    (pct : Rat) (pm cr mr : Value) (rest : List Row) :
    ((pct / 100 < thr.fk_match_rate_fail →
      (evaluate_check chk (fkRateRow pct pm cr mr :: rest) (some thr)).status = "FAIL") ∧
     (pct / 100 = thr.fk_match_rate_fail →
      (evaluate_check chk (fkRateRow pct pm cr mr :: rest) (some thr)).status = "WARN") ∧
     (thr.fk_match_rate_warn ≤ pct / 100 →
      (evaluate_check chk (fkRateRow pct pm cr mr :: rest) (some thr)).status = "PASS")) := by
  have hstat : (evaluate_check chk (fkRateRow pct pm cr mr :: rest) (some thr)).status =
      (if pct / 100 < thr.fk_match_rate_fail then "FAIL"
       else if pct / 100 < thr.fk_match_rate_warn then "WARN" else "PASS") := by
    simp only [evaluate_check, hc]
    simp [_evaluate_fk_match_rate, fkRateRow, rowGet, Value.toRat]
  rw [hstat]
  refine ⟨?_, ?_, ?_⟩
  · intro h
    rw [if_pos h]
  · intro h
    rw [if_neg (by rw [h]; exact lt_irrefl _), if_pos (by rw [h]; exact hw)]
  · intro h
    rw [if_neg (not_lt.mpr (le_trans hw.le h)), if_neg (not_lt.mpr h)]

/-- Witness for C3 at the default thresholds: a 95% match rate (exactly
the fail cutoff) yields WARN. -/
theorem c3_witness :
    (evaluate_check fkRateCheck
      (fkRateRow 95 (Value.str "stg_users") (Value.int 100) (Value.int 95) :: [])
      (some {})).status = "WARN" :=
  (c3_fk_match_rate_boundaries fkRateCheck rfl {} (by norm_num) 95
    (Value.str "stg_users") (Value.int 100) (Value.int 95) []).2.1 rfl

/-- Witness for C2 at the default thresholds: a 5% null rate (exactly the
fail cutoff) yields WARN. -/
theorem c2_witness :
    (evaluate_check nullRateCheck
      (nullRateRow 5 (Value.int 50) (Value.int 1000) :: []) (some {})).status = "WARN" :=
  (c2_null_rate_boundaries nullRateCheck rfl {} (by norm_num) 5
    (Value.int 50) (Value.int 1000) []).2.1 rfl

/-- C7: unexpected_values evaluation returns PASS on empty rows and WARN
on any non-empty rows, and value_distribution evaluation always returns
PASS; neither check ever produces FAIL. -/
theorem c7_informational (chk : Check) (rows : List Row) (thr : Option Thresholds) :
    (chk.check = "unexpected_values" →
      (rows = [] → (evaluate_check chk rows thr).status = "PASS") ∧
      (rows ≠ [] → (evaluate_check chk rows thr).status = "WARN")) ∧
    (chk.check = "value_distribution" →
      (evaluate_check chk rows thr).status = "PASS") := by
  constructor
  · intro hc
    simp only [evaluate_check, hc]
    constructor
    · intro hr
      subst hr
      simp [_evaluate_unexpected_values]
    · intro hr
      match rows with
      | [] => exact absurd rfl hr
      | r :: rs => simp [_evaluate_unexpected_values]
  · intro hc
    simp only [evaluate_check, hc]
    simp [_evaluate_value_distribution]

/-- Witness for C7: a non-empty unexpected_values result row yields WARN
and an empty value_distribution result yields PASS. -/
theorem c7_witness :
    (evaluate_check uvCheck
      [[("UNEXPECTED_VALUE", Value.str "x"), ("ROW_COUNT", Value.int 3)]] none).status = "WARN" ∧
    (evaluate_check vdCheck [] none).status = "PASS" :=
  ⟨((c7_informational uvCheck
      [[("UNEXPECTED_VALUE", Value.str "x"), ("ROW_COUNT", Value.int 3)]] none).1 rfl).2
      (by decide),
   (c7_informational vdCheck [] none).2 rfl⟩

/-- C10: for every check (any check name, including unrecognized ones),
every rows list and every thresholds value, evaluate_check returns a result
whose status is PASS, WARN or FAIL; the SKIP status is never produced by
the Evaluator. -/
theorem c10_no_skip (chk : Check) (rows : List Row) (thr : Option Thresholds) :
    (evaluate_check chk rows thr).status = "PASS" ∨
    (evaluate_check chk rows thr).status = "WARN" ∨
    (evaluate_check chk rows thr).status = "FAIL" := by
  unfold evaluate_check
  split_ifs <;> cases rows <;>
    simp [_evaluate_pk_duplicates, _evaluate_null_rate, _evaluate_unexpected_values,
      _evaluate_value_distribution, _evaluate_fk_match_rate, _evaluate_row_count,
      _evaluate_default] <;>
    first
      | rfl
      | (split_ifs <;> simp_all)





theorem strMk_data (s : String) : String.mk s.data = s := by
  cases s
  rfl

theorem plAux_step_nonsq (a : Char) (rest : List Char) (cur : List Char)
    (acc : List (List Char)) (ha : ¬ a = sq) :
    plAux (a :: rest) cur acc = plAux rest (cur ++ [a]) acc := by
  rw [plAux.eq_def]
  simp [ha]

theorem plAux_step_sqsq (rest : List Char) (cur : List Char)
    (acc : List (List Char)) :
    plAux (sq :: sq :: rest) cur acc = plAux rest (cur ++ [sq]) acc := by
  rw [plAux.eq_def]
  simp

theorem plAux_close_nil (cur : List Char) (acc : List (List Char)) :
    plAux [sq] cur acc = some (acc ++ [cur]) := by
  rw [plAux.eq_def]
  simp

theorem plAux_close_sep (rest4 : List Char) (cur : List Char)
    (acc : List (List Char)) :
    plAux (sq :: ',' :: ' ' :: sq :: rest4) cur acc = plAux rest4 [] (acc ++ [cur]) := by
  have h1 : ¬ ((',' : Char) = sq) := by decide
  rw [plAux.eq_def]
  simp [h1]

theorem plAux_escape_close (v : List Char) : ∀ cur acc,
    plAux (escapeChars v ++ [sq]) cur acc = some (acc ++ [cur ++ v]) := by
  induction v with
  | nil =>
    intro cur acc
    have h : escapeChars [] ++ [sq] = [sq] := by simp [escapeChars]
    rw [h, plAux_close_nil]
    simp
  | cons a v2 ih =>
    intro cur acc
    by_cases ha : a = sq
    · subst ha
      have h : escapeChars (sq :: v2) ++ [sq] = sq :: sq :: (escapeChars v2 ++ [sq]) := by
        simp [escapeChars]
      rw [h, plAux_step_sqsq, ih (cur ++ [sq]) acc]
      simp
    · have h : escapeChars (a :: v2) ++ [sq] = a :: (escapeChars v2 ++ [sq]) := by
        simp [escapeChars, ha]
      rw [h, plAux_step_nonsq a _ cur acc ha, ih (cur ++ [a]) acc]
      simp
  
theorem plAux_escape_sep (v : List Char) (t : List Char) : ∀ cur acc,
    plAux (escapeChars v ++ sq :: ',' :: ' ' :: sq :: t) cur acc =
      plAux t [] (acc ++ [cur ++ v]) := by
  induction v with
  | nil =>
    intro cur acc
    have h : escapeChars [] ++ sq :: ',' :: ' ' :: sq :: t =
        sq :: ',' :: ' ' :: sq :: t := by simp [escapeChars]
    rw [h, plAux_close_sep]
    simp
  | cons a v2 ih =>
    intro cur acc
    by_cases ha : a = sq
    · subst ha
      have h : escapeChars (sq :: v2) ++ sq :: ',' :: ' ' :: sq :: t =
          sq :: sq :: (escapeChars v2 ++ sq :: ',' :: ' ' :: sq :: t) := by
        simp [escapeChars]
      rw [h, plAux_step_sqsq, ih (cur ++ [sq]) acc]
      simp
    · have h : escapeChars (a :: v2) ++ sq :: ',' :: ' ' :: sq :: t =
          a :: (escapeChars v2 ++ sq :: ',' :: ' ' :: sq :: t) := by
        simp [escapeChars, ha]
      rw [h, plAux_step_nonsq a _ cur acc ha, ih (cur ++ [a]) acc]
      simp

theorem joinCommaSpace_parse (vs : List (List Char)) (hne : vs ≠ []) : ∀ acc,
    ∃ t, joinCommaSpace (vs.map (fun v => sq :: escapeChars v ++ [sq])) = sq :: t ∧
      plAux t [] acc = some (acc ++ vs) := by
  induction vs with
  | nil => exact absurd rfl hne
  | cons v rest ih =>
    intro acc
    match rest with
    | [] =>
      refine ⟨escapeChars v ++ [sq], by simp [joinCommaSpace], ?_⟩
      rw [plAux_escape_close]
      simp
    | w :: rest2 =>
      obtain ⟨t2, hj2, hp2⟩ := ih (by simp) (acc ++ [v])
      refine ⟨escapeChars v ++ sq :: ',' :: ' ' :: sq :: t2, ?_, ?_⟩
      · have h : joinCommaSpace (((v :: w :: rest2).map (fun u => sq :: escapeChars u ++ [sq]))) =
            (sq :: escapeChars v ++ [sq]) ++ ',' :: ' ' ::
              joinCommaSpace ((w :: rest2).map (fun u => sq :: escapeChars u ++ [sq])) := by
          simp [joinCommaSpace]
        rw [h, hj2]
        simp
      · rw [plAux_escape_sep]
        simp only [List.nil_append]
        rw [hp2]
        simp

theorem parse_quotedLiterals (V : List String) :
    parseQuotedList (quotedLiterals V) = some V := by
  match V with
  | [] => rfl
  | v :: rest =>
    obtain ⟨t, hj, hp⟩ :=
      joinCommaSpace_parse ((v :: rest).map String.data) (by simp) []
    have hq : quotedLiterals (v :: rest) = String.mk (sq :: t) := by
      rw [quotedLiterals]
      rw [show ((v :: rest).map (fun u => sq :: escapeChars u.data ++ [sq])) =
        (((v :: rest).map String.data).map (fun u => sq :: escapeChars u ++ [sq])) by
          simp [List.map_map, Function.comp_def]]
      rw [hj]
    rw [hq]
    have hnn : String.mk (sq :: t) ≠ "" := by
      intro h
      have h2 := congrArg String.data h
      simp at h2
    rw [parseQuotedList, if_neg hnn]
    have hdata : (String.mk (sq :: t)).data = sq :: t := rfl
    rw [hdata]
    rw [parseLitsCore]
    simp only [if_pos rfl]
    rw [hp]
    simp [List.map_map, Function.comp_def, strMk_data]




/-- C8: for a model with an accepted-values test on column `c` with value
set `V`, the generated unexpected_values check embeds the quoted literal
list built by doubling every single-quote character in each value, and
re-parsing that literal list (un-doubling quotes inside the single-quoted
literals) recovers exactly `V`, including values containing quotes. -/
theorem c8_unexpected_values_escaping (meta : ModelMeta) (c : String)
    (V : List String) (hacc : meta.accepted_values_tests = [(c, V)]) :
    (∃ chk, chk ∈ _distribution_checks meta ∧ chk.check = "unexpected_values" ∧
      chk.sql = "SELECT " ++ c ++ " AS unexpected_value, COUNT(*) AS row_count FROM "
        ++ meta.relation_name ++ " WHERE " ++ c ++ " NOT IN ("
        ++ quotedLiterals V ++ ") AND " ++ c
        ++ " IS NOT NULL GROUP BY " ++ c ++ " ORDER BY row_count DESC") ∧
    parseQuotedList (quotedLiterals V) = some V := by
  refine ⟨?_, parse_quotedLiterals V⟩
  refine ⟨{ category := "distribution", model := meta.name,
            check := "unexpected_values",
            sql := "SELECT " ++ c ++ " AS unexpected_value, COUNT(*) AS row_count FROM "
              ++ meta.relation_name ++ " WHERE " ++ c ++ " NOT IN ("
              ++ quotedLiterals V ++ ") AND " ++ c
              ++ " IS NOT NULL GROUP BY " ++ c ++ " ORDER BY row_count DESC",
            importance := "HIGH",
            metadata := some [("column", MetaVal.str c),
                              ("expected_values", MetaVal.list V)] }, ?_, rfl, rfl⟩
  simp [_distribution_checks, hacc]

/-- Witness for C8 on a concrete model whose accepted values include an
embedded quote character. -/
theorem c8_witness :
    parseQuotedList (quotedLiterals ["active", "in" ++ sqStr ++ "active"]) =
      some ["active", "in" ++ sqStr ++ "active"] :=
  (c8_unexpected_values_escaping metaW "status"
    ["active", "in" ++ sqStr ++ "active"] rfl).2




/-- C9: join-column resolution for a child model and a direct parent.  A
non-empty explicit override keyed by (child name, parent name) supplies the
join columns, taking precedence over inference; otherwise the join columns
are the parent's uniqueness-tested columns that appear in the child's
column list, in the parent's test-declaration order; and when that set is
empty no fk_match_rate check is emitted for the parent. -/
theorem c9_join_resolution (manifest : Manifest) (meta parent : ModelMeta)
    (puid : String) (ov : JoinOverrides)
    (hdep : meta.depends_on_models = [puid])
    (hget : get_model manifest puid = some parent) :
    (∀ cols, getOverrideKeys ov meta.name parent.name = some cols → cols ≠ [] →
      (_join_checks manifest meta ov).map checkJoinCols =
        [some (MetaVal.list cols)] ∧
      (_join_checks manifest meta ov).map Check.check = ["fk_match_rate"]) ∧
    ((getOverrideKeys ov meta.name parent.name = none ∨
      getOverrideKeys ov meta.name parent.name = some []) →
      ((parent.unique_tests.filter (fun c => meta.columns.contains c) ≠ [] →
        (_join_checks manifest meta ov).map checkJoinCols =
          [some (MetaVal.list
            (parent.unique_tests.filter (fun c => meta.columns.contains c)))] ∧
        (_join_checks manifest meta ov).map Check.check = ["fk_match_rate"]) ∧
       (parent.unique_tests.filter (fun c => meta.columns.contains c) = [] →
        _join_checks manifest meta ov = []))) := by
  constructor
  · intro cols hov hne
    match cols, hne with
    | j0 :: cols2, _ =>
      constructor <;>
        simp [_join_checks, hdep, hget, hov, checkJoinCols]
  · intro hov
    constructor
    · intro hinf
      match hI : parent.unique_tests.filter (fun c => meta.columns.contains c), hinf with
      | j0 :: rest, _ =>
        simp only [List.elem_eq_mem] at hI
        rcases hov with h | h <;>
          constructor <;>
            simp [_join_checks, hdep, hget, h, hI, checkJoinCols]
    · intro hI
      simp only [List.elem_eq_mem] at hI
      rcases hov with h | h <;>
        simp [_join_checks, hdep, hget, h, hI]

/-- Witness for C9 on the spec's scenario: the override
fact_orders -> stg_users -> [user_id] takes precedence over the inferred
intersection [order_id]. -/
theorem c9_witness :
    (_join_checks manifestW childW ovW).map checkJoinCols =
      [some (MetaVal.list ["user_id"])] :=
  ((c9_join_resolution manifestW childW parentW "model.proj.stg_users" ovW
    rfl rfl).1 ["user_id"] rfl (by decide)).1




theorem getChildren_sub (cm : ChildMap) (uid : String) :
    ∀ c ∈ getChildren cm uid, c ∈ allChildren cm := by
  intro c hc
  unfold getChildren at hc
  cases hfind : cm.find? (fun p => p.1 == uid) with
  | none => rw [hfind] at hc; simp at hc
  | some p =>
    rw [hfind] at hc
    have hp := List.mem_of_find?_eq_some hfind
    unfold allChildren
    exact List.mem_flatMap.mpr ⟨p, hp, hc⟩

theorem reachFrom_one_le {cm : ChildMap} {u : String} {n : Nat} {x : String}
    (h : ReachFrom cm u n x) : 1 ≤ n := by
  cases h <;> omega

theorem reachFrom_target_model {cm : ChildMap} {u : String} {n : Nat}
    {x : String} (h : ReachFrom cm u n x) : isModelId x = true := by
  induction h with
  | single hc hm => exact hm
  | cons hc hm hr ih => exact ih

theorem reachFrom_target_child {cm : ChildMap} {u : String} {n : Nat}
    {x : String} (h : ReachFrom cm u n x) : x ∈ allChildren cm := by
  induction h with
  | single hc hm =>
    rename_i u2 c
    exact getChildren_sub cm u2 c hc
  | cons hc hm hr ih => exact ih

theorem reachFrom_snoc {cm : ChildMap} : ∀ {u : String} {n : Nat} {v : String},
    ReachFrom cm u n v → ∀ {c : String}, c ∈ getChildren cm v →
      isModelId c = true → ReachFrom cm u (n + 1) c := by
  intro u n v h
  induction h with
  | single hc2 hm2 =>
    intro c hc hm
    exact ReachFrom.cons hc2 hm2 (ReachFrom.single hc hm)
  | cons hc2 hm2 hr ih =>
    intro c hc hm
    exact ReachFrom.cons hc2 hm2 (ih hc hm)

theorem reachFrom_head {cm : ChildMap} {u : String} {n : Nat} {x : String}
    (h : ReachFrom cm u n x) :
    ∃ c, c ∈ getChildren cm u ∧ isModelId c = true ∧
      ((n = 1 ∧ c = x) ∨ ∃ k, n = k + 1 ∧ 1 ≤ k ∧ ReachFrom cm c k x) := by
  cases h with
  | single hc hm => exact ⟨x, hc, hm, Or.inl ⟨rfl, rfl⟩⟩
  | cons hc hm hr =>
    rename_i c k
    exact ⟨c, hc, hm, Or.inr ⟨k, rfl, reachFrom_one_le hr, hr⟩⟩

theorem reachN_one_le {cm : ChildMap} {seeds : List String} {n : Nat}
    {x : String} (h : ReachN cm seeds n x) : 1 ≤ n := by
  obtain ⟨s, hs, hr⟩ := h
  exact reachFrom_one_le hr

theorem reachN_target_model {cm : ChildMap} {seeds : List String} {n : Nat}
    {x : String} (h : ReachN cm seeds n x) : isModelId x = true := by
  obtain ⟨s, hs, hr⟩ := h
  exact reachFrom_target_model hr

theorem reachN_snoc {cm : ChildMap} {seeds : List String} {n : Nat}
    {v c : String} (h : ReachN cm seeds n v) (hc : c ∈ getChildren cm v)
    (hm : isModelId c = true) : ReachN cm seeds (n + 1) c := by
  obtain ⟨s, hs, hr⟩ := h
  exact ⟨s, hs, reachFrom_snoc hr hc hm⟩

theorem reachN_comp (cm : ChildMap) (seeds : List String) :
    ∀ {v k x}, ReachFrom cm v k x →
      ∀ n, ReachN cm seeds n v → ReachN cm seeds (n + k) x := by
  intro v k x h2
  induction h2 with
  | single hc hm =>
    intro n h
    exact reachN_snoc h hc hm
  | cons hc hm hr ih =>
    intro n h
    have h3 := ih (n + 1) (reachN_snoc h hc hm)
    rename_i u3 c3 x3 m3
    have harith : n + 1 + m3 = n + (m3 + 1) := by omega
    rwa [harith] at h3

theorem reachN_of_seed {cm : ChildMap} {seeds : List String} {s : String}
    {k : Nat} {x : String} (hs : s ∈ seeds) (h : ReachFrom cm s k x) :
    ReachN cm seeds k x := ⟨s, hs, h⟩



theorem enqueueChildren_spec (depth : Nat) : ∀ (children : List String)
    (visited : List String) (queue : List (String × Nat)),
    ∃ new : List (String × Nat),
      (enqueueChildren children depth visited queue).2 = queue ++ new ∧
      (∀ c, c ∈ (enqueueChildren children depth visited queue).1 ↔
        c ∈ visited ∨ ∃ d, (c, d) ∈ new) ∧
      (∀ p : String × Nat, p ∈ new ↔
        (p.1 ∈ children ∧ isModelId p.1 = true ∧ p.1 ∉ visited ∧ p.2 = depth)) ∧
      (new.map Prod.fst).Nodup := by
  intro children
  induction children with
  | nil =>
    intro visited queue
    refine ⟨[], by simp [enqueueChildren], ?_, ?_, by simp⟩
    · intro c
      simp [enqueueChildren]
    · intro p
      simp
  | cons c rest ih =>
    intro visited queue
    cases hcond : (isModelId c && !(visited.contains c)) with
    | true =>
      have hm : isModelId c = true := by
        rw [Bool.and_eq_true] at hcond
        exact hcond.1
      have hnv : c ∉ visited := by
        rw [Bool.and_eq_true] at hcond
        have h2 := hcond.2
        simp at h2
        exact h2
      obtain ⟨new2, heq2, hviff2, hniff2, hnd2⟩ := ih (c :: visited) (queue ++ [(c, depth)])
      have hunfold : enqueueChildren (c :: rest) depth visited queue =
          if isModelId c && !(visited.contains c) then
            enqueueChildren rest depth (c :: visited) (queue ++ [(c, depth)])
          else enqueueChildren rest depth visited queue := rfl
      have hstep1 : (enqueueChildren (c :: rest) depth visited queue) =
          enqueueChildren rest depth (c :: visited) (queue ++ [(c, depth)]) := by
        rw [hunfold, hcond]
        simp
      refine ⟨(c, depth) :: new2, ?_, ?_, ?_, ?_⟩
      · rw [hstep1, heq2]
        simp
      · intro c2
        rw [hstep1, hviff2 c2]
        simp only [List.mem_cons]
        constructor
        · rintro (h | h)
          · rcases h with h | h
            · exact Or.inr ⟨depth, Or.inl (by rw [h])⟩
            · exact Or.inl h
          · obtain ⟨d, hd⟩ := h
            exact Or.inr ⟨d, Or.inr hd⟩
        · rintro (h | ⟨d, (h | h)⟩)
          · exact Or.inl (Or.inr h)
          · have : c2 = c := by
              have := congrArg Prod.fst h
              simpa using this
            exact Or.inl (Or.inl this)
          · exact Or.inr ⟨d, h⟩
      · intro p
        constructor
        · intro hp
          rcases List.mem_cons.mp hp with h | h
          · subst h
            exact ⟨List.mem_cons_self c rest, hm, hnv, rfl⟩
          · obtain ⟨h1, h2, h3, h4⟩ := (hniff2 p).mp h
            refine ⟨List.mem_cons_of_mem c h1, h2, ?_, h4⟩
            intro hmem
            exact h3 (List.mem_cons_of_mem c hmem)
        · rintro ⟨h1, h2, h3, h4⟩
          by_cases hpc : p.1 = c
          · have hpp : p = (p.1, p.2) := rfl
            rw [hpp, hpc, h4]
            exact List.mem_cons_self _ _
          · refine List.mem_cons_of_mem _ ((hniff2 p).mpr ⟨?_, h2, ?_, h4⟩)
            · rcases List.mem_cons.mp h1 with h | h
              · exact absurd h hpc
              · exact h
            · intro hmem
              rcases List.mem_cons.mp hmem with h | h
              · exact hpc h
              · exact h3 h
      · rw [List.map_cons]
        refine List.nodup_cons.mpr ⟨?_, hnd2⟩
        intro hmem
        obtain ⟨p, hp, hp1⟩ := List.mem_map.mp hmem
        have := ((hniff2 p).mp hp).2.2.1
        exact this (by rw [hp1]; exact List.mem_cons_self c visited)
    | false =>
      obtain ⟨new, heq, hviff, hniff, hnd⟩ := ih visited queue
      have hunfold : enqueueChildren (c :: rest) depth visited queue =
          if isModelId c && !(visited.contains c) then
            enqueueChildren rest depth (c :: visited) (queue ++ [(c, depth)])
          else enqueueChildren rest depth visited queue := rfl
      have hstep1 : (enqueueChildren (c :: rest) depth visited queue) =
          enqueueChildren rest depth visited queue := by
        rw [hunfold, hcond]
        simp
      have hcnot : ¬ (isModelId c = true ∧ c ∉ visited) := by
        intro ⟨h1, h2⟩
        rw [Bool.and_eq_false_iff] at hcond
        rcases hcond with h | h
        · rw [h1] at h
          simp at h
        · simp at h
          exact h2 h
      refine ⟨new, by rw [hstep1]; exact heq, ?_, ?_, hnd⟩
      · intro c2
        rw [hstep1]
        exact hviff c2
      · intro p
        rw [hniff p]
        constructor
        · rintro ⟨h1, h2, h3, h4⟩
          exact ⟨List.mem_cons_of_mem c h1, h2, h3, h4⟩
        · rintro ⟨h1, h2, h3, h4⟩
          rcases List.mem_cons.mp h1 with h | h
          · exact absurd ⟨h ▸ h2, h ▸ h3⟩ hcnot
          · exact ⟨h, h2, h3, h4⟩



theorem enqueueChildren_measure (cm : ChildMap) (uid : String) (depth : Nat)
    (visited : List String) (queue : List (String × Nat)) :
    (enqueueChildren (getChildren cm uid) depth visited queue).2.length +
      ((allChildren cm).toFinset \
        (enqueueChildren (getChildren cm uid) depth visited queue).1.toFinset).card ≤
    queue.length + ((allChildren cm).toFinset \ visited.toFinset).card := by
  obtain ⟨new, heq, hviff, hniff, hnd⟩ :=
    enqueueChildren_spec depth (getChildren cm uid) visited queue
  have hsub : (new.map Prod.fst).toFinset ⊆
      (allChildren cm).toFinset \ visited.toFinset := by
    intro a ha
    rw [List.mem_toFinset, List.mem_map] at ha
    obtain ⟨p, hp, rfl⟩ := ha
    obtain ⟨h1, h2, h3, h4⟩ := (hniff p).mp hp
    refine Finset.mem_sdiff.mpr
      ⟨List.mem_toFinset.mpr (getChildren_sub cm uid _ h1), ?_⟩
    rw [List.mem_toFinset]
    exact h3
  have hcard : (new.map Prod.fst).toFinset.card = new.length := by
    rw [List.toFinset_card_of_nodup hnd, List.length_map]
  have hv1 : (allChildren cm).toFinset \
      (enqueueChildren (getChildren cm uid) depth visited queue).1.toFinset =
      ((allChildren cm).toFinset \ visited.toFinset) \ (new.map Prod.fst).toFinset := by
    ext a
    simp only [Finset.mem_sdiff, List.mem_toFinset, hviff a, List.mem_map]
    constructor
    · rintro ⟨hS, hn⟩
      push_neg at hn
      exact ⟨⟨hS, hn.1⟩, fun ⟨p, hp, he⟩ => hn.2 p.2 (by
        have hpp : p = (a, p.2) := by
          rw [show p = (p.1, p.2) from rfl, he]
        rw [← hpp]
        exact hp)⟩
    · rintro ⟨⟨hS, hv⟩, hn⟩
      refine ⟨hS, ?_⟩
      rintro (h | ⟨d, hd⟩)
      · exact hv h
      · exact hn ⟨(a, d), hd, rfl⟩
  have hq : (enqueueChildren (getChildren cm uid) depth visited queue).2.length =
      queue.length + new.length := by
    rw [heq, List.length_append]
  have hsd := Finset.card_sdiff_add_card_eq_card hsub
  rw [hq, hv1]
  omega

theorem initQueue_spec (cm : ChildMap) : ∀ (seeds visited : List String)
    (queue : List (String × Nat)), ∃ new : List (String × Nat),
    (initQueue cm seeds visited queue).2 = queue ++ new ∧
    (∀ c, c ∈ (initQueue cm seeds visited queue).1 ↔
      c ∈ visited ∨ ∃ d, (c, d) ∈ new) ∧
    (∀ p ∈ new, p.2 = 1 ∧ isModelId p.1 = true ∧ p.1 ∉ visited ∧
      ∃ s ∈ seeds, p.1 ∈ getChildren cm s) ∧
    (∀ s ∈ seeds, ∀ c ∈ getChildren cm s, isModelId c = true →
      c ∈ (initQueue cm seeds visited queue).1) ∧
    (new.map Prod.fst).Nodup := by
  intro seeds
  induction seeds with
  | nil =>
    intro visited queue
    refine ⟨[], by simp [initQueue], fun c => by simp [initQueue], by simp,
      by simp, by simp⟩
  | cons s rest ih =>
    intro visited queue
    have hunfold : initQueue cm (s :: rest) visited queue =
        initQueue cm rest (enqueueChildren (getChildren cm s) 1 visited queue).1
          (enqueueChildren (getChildren cm s) 1 visited queue).2 := rfl
    obtain ⟨new1, heq1, hviff1, hniff1, hnd1⟩ :=
      enqueueChildren_spec 1 (getChildren cm s) visited queue
    obtain ⟨new2, heq2, hviff2, hmem2, hcover2, hnd2⟩ :=
      ih (enqueueChildren (getChildren cm s) 1 visited queue).1
        (enqueueChildren (getChildren cm s) 1 visited queue).2
    refine ⟨new1 ++ new2, ?_, ?_, ?_, ?_, ?_⟩
    · rw [hunfold, heq2, heq1, List.append_assoc]
    · intro c
      rw [hunfold, hviff2 c, hviff1 c]
      simp only [List.mem_append]
      constructor
      · rintro ((h | ⟨d, hd⟩) | ⟨d, hd⟩)
        · exact Or.inl h
        · exact Or.inr ⟨d, Or.inl hd⟩
        · exact Or.inr ⟨d, Or.inr hd⟩
      · rintro (h | ⟨d, (hd | hd)⟩)
        · exact Or.inl (Or.inl h)
        · exact Or.inl (Or.inr ⟨d, hd⟩)
        · exact Or.inr ⟨d, hd⟩
    · intro p hp
      rcases List.mem_append.mp hp with h | h
      · obtain ⟨h1, h2, h3, h4⟩ := (hniff1 p).mp h
        exact ⟨h4, h2, h3, s, List.mem_cons_self s rest, h1⟩
      · obtain ⟨h4, h2, h3, s2, hs2, hc2⟩ := hmem2 p h
        refine ⟨h4, h2, ?_, s2, List.mem_cons_of_mem s hs2, hc2⟩
        intro hv
        exact h3 ((hviff1 p.1).mpr (Or.inl hv))
    · intro s2 hs2 c hc hm
      rcases List.mem_cons.mp hs2 with h | h
      · subst h
        have hcv1 : c ∈ (enqueueChildren (getChildren cm s2) 1 visited queue).1 := by
          by_cases hcvis : c ∈ visited
          · exact (hviff1 c).mpr (Or.inl hcvis)
          · exact (hviff1 c).mpr (Or.inr ⟨1, (hniff1 (c, 1)).mpr ⟨hc, hm, hcvis, rfl⟩⟩)
        rw [hunfold]
        exact (hviff2 c).mpr (Or.inl hcv1)
      · rw [hunfold]
        exact hcover2 s2 h c hc hm
    · rw [List.map_append]
      refine List.Nodup.append hnd1 hnd2 ?_
      intro a ha1 ha2
      rw [List.mem_map] at ha1 ha2
      obtain ⟨p1, hp1, rfl⟩ := ha1
      obtain ⟨p2, hp2, he⟩ := ha2
      have hv1 : p1.1 ∈ (enqueueChildren (getChildren cm s) 1 visited queue).1 :=
        (hviff1 p1.1).mpr (Or.inr ⟨p1.2, by
          rw [show (p1.1, p1.2) = p1 from rfl]
          exact hp1⟩)
      exact (hmem2 p2 hp2).2.2.1 (he ▸ hv1)

theorem bfsLoop_isSome (cm : ChildMap) (maxd : Nat) : ∀ (fuel : Nat)
    (vis : List String) (q : List (String × Nat)) (ds : List (String × Nat)),
    q.length + ((allChildren cm).toFinset \ vis.toFinset).card ≤ fuel →
    (bfsLoop cm maxd fuel vis q ds).isSome = true := by
  intro fuel
  induction fuel with
  | zero =>
    intro vis q ds h
    match q with
    | [] => rfl
    | (uid, d) :: rest =>
      simp at h
  | succ fuel ih =>
    intro vis q ds h
    match q with
    | [] => rfl
    | (uid, d0) :: rest =>
      have hunfold : bfsLoop cm maxd (fuel + 1) vis ((uid, d0) :: rest) ds =
          (if maxd ≤ d0 then
            bfsLoop cm maxd fuel vis rest (ds ++ [(uid, d0)])
          else
            bfsLoop cm maxd fuel
              (enqueueChildren (getChildren cm uid) (d0 + 1) vis rest).1
              (enqueueChildren (getChildren cm uid) (d0 + 1) vis rest).2
              (ds ++ [(uid, d0)])) := rfl
      rw [hunfold]
      by_cases hd : maxd ≤ d0
      · rw [if_pos hd]
        apply ih
        simp only [List.length_cons] at h
        omega
      · rw [if_neg hd]
        apply ih
        have hm := enqueueChildren_measure cm uid (d0 + 1) vis rest
        simp only [List.length_cons] at h
        omega

/-- C6: the BFS loop terminates on every finite child-adjacency map,
cyclic ones included: with fuel equal to the total number of child
occurrences in the map, the loop always drains its queue (the fuel is never
exhausted), because the visited-set membership check before each enqueue
lets every node be enqueued at most once. -/
theorem c6_blast_terminates (cm : ChildMap) (seeds : List String) (maxd : Nat) :
    (bfsLoop cm maxd (totalChildren cm)
      (initQueue cm seeds seeds []).1 (initQueue cm seeds seeds []).2 []).isSome = true := by
  apply bfsLoop_isSome
  obtain ⟨new, heq, hviff, hmem, hcover, hnd⟩ := initQueue_spec cm seeds seeds []
  have hq : (initQueue cm seeds seeds []).2.length = new.length := by
    rw [heq]
    simp
  have hsubS : (new.map Prod.fst).toFinset ⊆ (allChildren cm).toFinset := by
    intro a ha
    rw [List.mem_toFinset, List.mem_map] at ha
    obtain ⟨p, hp, rfl⟩ := ha
    obtain ⟨h4, h2, h3, s2, hs2, hc2⟩ := hmem p hp
    exact List.mem_toFinset.mpr (getChildren_sub cm s2 _ hc2)
  have hsubV : ∀ a ∈ (new.map Prod.fst).toFinset,
      a ∈ (initQueue cm seeds seeds []).1 := by
    intro a ha
    rw [List.mem_toFinset, List.mem_map] at ha
    obtain ⟨p, hp, rfl⟩ := ha
    exact (hviff p.1).mpr (Or.inr ⟨p.2, by
      rw [show (p.1, p.2) = p from rfl]
      exact hp⟩)
  have hdisj : Disjoint ((allChildren cm).toFinset \
      (initQueue cm seeds seeds []).1.toFinset) ((new.map Prod.fst).toFinset) := by
    rw [Finset.disjoint_right]
    intro a ha
    rw [Finset.mem_sdiff]
    push_neg
    intro hS
    exact List.mem_toFinset.mpr (hsubV a ha)
  have hcard : (new.map Prod.fst).toFinset.card = new.length := by
    rw [List.toFinset_card_of_nodup hnd, List.length_map]
  have hunion : ((allChildren cm).toFinset \
      (initQueue cm seeds seeds []).1.toFinset) ∪ (new.map Prod.fst).toFinset ⊆
      (allChildren cm).toFinset := by
    apply Finset.union_subset
    · exact Finset.sdiff_subset
    · exact hsubS
  have hle := Finset.card_le_card hunion
  rw [Finset.card_union_of_disjoint hdisj] at hle
  have hS : (allChildren cm).toFinset.card ≤ totalChildren cm := by
    unfold totalChildren
    exact (allChildren cm).toFinset_card_le
  omega



theorem bfsInv_step_skip {cm : ChildMap} {seeds : List String} {maxd : Nat}
    {vis : List String} {uid : String} {d0 : Nat}
    {rest ds : List (String × Nat)}
    (inv : BfsInv cm seeds maxd vis ((uid, d0) :: rest) ds)
    (hge : maxd ≤ d0) :
    BfsInv cm seeds maxd vis rest (ds ++ [(uid, d0)]) := by
  have hL : (ds ++ [(uid, d0)]) ++ rest = ds ++ (uid, d0) :: rest := by
    simp
  refine ⟨inv.seeds_vis, ?_, ?_, ?_, ?_, ?_, ?_, ?_, ?_⟩
  · intro v hv
    rcases inv.vis_cover v hv with h | ⟨d, hd⟩
    · exact Or.inl h
    · exact Or.inr ⟨d, by rw [hL]; exact hd⟩
  · intro p hp
    rw [hL] at hp
    exact inv.elems p hp
  · rw [hL]
    exact inv.nodups
  · intro p hp
    rw [hL] at hp
    exact inv.bounds p hp
  · intro p hp
    rw [hL] at hp
    exact inv.sound p hp
  · rw [hL]
    exact inv.mono
  · intro p hp r hr
    exact inv.gap p (List.mem_cons_of_mem _ hp) r (List.mem_cons_of_mem _ hr)
  · intro n x hrx hn
    rcases inv.complete n x hrx hn with hx | ⟨p, hp, k, hk1, hkr, hkb⟩
    · exact Or.inl hx
    · rcases List.mem_cons.mp hp with hph | hprest
      · exfalso
        have hb := (inv.bounds (uid, d0) (by simp)).1
        rw [hph] at hkb
        simp only at hkb
        omega
      · exact Or.inr ⟨p, hprest, k, hk1, hkr, hkb⟩



theorem bfsInv_step_expand {cm : ChildMap} {seeds : List String} {maxd : Nat}
    {vis : List String} {uid : String} {d0 : Nat}
    {rest ds : List (String × Nat)}
    (inv : BfsInv cm seeds maxd vis ((uid, d0) :: rest) ds)
    (hlt : d0 < maxd) :
    BfsInv cm seeds maxd
      (enqueueChildren (getChildren cm uid) (d0 + 1) vis rest).1
      (enqueueChildren (getChildren cm uid) (d0 + 1) vis rest).2
      (ds ++ [(uid, d0)]) := by
  obtain ⟨new, heq, hviff, hniff, hnd⟩ :=
    enqueueChildren_spec (d0 + 1) (getChildren cm uid) vis rest
  have hL : ((ds ++ [(uid, d0)]) ++ (rest ++ new)) =
      (ds ++ (uid, d0) :: rest) ++ new := by
    simp
  have hhead : (uid, d0) ∈ ds ++ (uid, d0) :: rest := by simp
  have hb0 := (inv.bounds (uid, d0) hhead).1
  have hsound0 : ReachN cm seeds d0 uid := inv.sound (uid, d0) hhead
  have hnew_mem : ∀ p ∈ new, p.1 ∈ getChildren cm uid ∧ isModelId p.1 = true ∧
      p.1 ∉ vis ∧ p.2 = d0 + 1 := fun p hp => (hniff p).mp hp
  have hnew_sound : ∀ p ∈ new, ReachN cm seeds p.2 p.1 := by
    intro p hp
    obtain ⟨h1, h2, h3, h4⟩ := hnew_mem p hp
    rw [h4]
    exact reachN_snoc hsound0 h1 h2
  have hmono2 := inv.mono
  rw [List.map_append, List.Sorted, List.pairwise_append] at hmono2
  have hds_le : ∀ p ∈ ds, p.2 ≤ d0 := by
    intro p hp
    exact hmono2.2.2 p.2 (List.mem_map_of_mem Prod.snd hp) d0 (by simp)
  have hrest_ge : ∀ p ∈ rest, d0 ≤ p.2 := by
    intro p hp
    have h2 := hmono2.2.1
    simp only [List.map_cons] at h2
    exact (List.pairwise_cons.mp h2).1 p.2 (List.mem_map_of_mem Prod.snd hp)
  have hrest_le : ∀ p ∈ rest, p.2 ≤ d0 + 1 := by
    intro p hp
    exact inv.gap p (List.mem_cons_of_mem _ hp) (uid, d0) (List.mem_cons_self _ _)
  have hold_elems : ∀ p ∈ ds ++ (uid, d0) :: rest, p.1 ∈ vis ∧ p.1 ∉ seeds ∧
      isModelId p.1 = true := inv.elems
  rw [heq]
  refine ⟨?_, ?_, ?_, ?_, ?_, ?_, ?_, ?_, ?_⟩
  · intro s hs
    exact (hviff s).mpr (Or.inl (inv.seeds_vis s hs))
  · intro v hv
    rcases (hviff v).mp hv with h | ⟨d, hd⟩
    · rcases inv.vis_cover v h with h2 | ⟨d, hd⟩
      · exact Or.inl h2
      · refine Or.inr ⟨d, ?_⟩
        rw [hL]
        exact List.mem_append_left _ hd
    · refine Or.inr ⟨d, ?_⟩
      rw [hL]
      exact List.mem_append_right _ hd
  · intro p hp
    rw [hL] at hp
    rcases List.mem_append.mp hp with h | h
    · obtain ⟨h1, h2, h3⟩ := hold_elems p h
      exact ⟨(hviff p.1).mpr (Or.inl h1), h2, h3⟩
    · obtain ⟨h1, h2, h3, h4⟩ := hnew_mem p h
      refine ⟨(hviff p.1).mpr (Or.inr ⟨p.2, by
          rw [show (p.1, p.2) = p from rfl]
          exact h⟩), ?_, h2⟩
      intro hseed
      exact h3 (inv.seeds_vis p.1 hseed)
  · rw [hL, List.map_append]
    refine List.Nodup.append inv.nodups hnd ?_
    intro a ha1 ha2
    rw [List.mem_map] at ha1 ha2
    obtain ⟨p1, hp1, rfl⟩ := ha1
    obtain ⟨p2, hp2, he⟩ := ha2
    have h1 := (hold_elems p1 hp1).1
    exact (hnew_mem p2 hp2).2.2.1 (he ▸ h1)
  · intro p hp
    rw [hL] at hp
    rcases List.mem_append.mp hp with h | h
    · exact inv.bounds p h
    · have h4 := (hnew_mem p h).2.2.2
      rw [h4]
      omega
  · intro p hp
    rw [hL] at hp
    rcases List.mem_append.mp hp with h | h
    · exact inv.sound p h
    · exact hnew_sound p h
  · rw [hL, List.map_append]
    rw [List.Sorted, List.pairwise_append]
    have hcst : ∀ b ∈ new.map Prod.snd, b = d0 + 1 := by
      intro b hb
      rw [List.mem_map] at hb
      obtain ⟨p, hp, rfl⟩ := hb
      exact (hnew_mem p hp).2.2.2
    refine ⟨inv.mono, ?_, ?_⟩
    · have hconst : ∀ bs : List Nat, (∀ b ∈ bs, b = d0 + 1) →
          bs.Pairwise (· ≤ ·) := by
        intro bs hcst2
        induction bs with
        | nil => exact List.Pairwise.nil
        | cons a bs2 ih =>
          refine List.Pairwise.cons ?_
            (ih (fun b hb => hcst2 b (List.mem_cons_of_mem a hb)))
          intro b hb
          rw [hcst2 a (List.mem_cons_self a bs2),
            hcst2 b (List.mem_cons_of_mem a hb)]
      exact hconst (new.map Prod.snd) hcst
    · intro a ha b hb
      rw [List.mem_map] at ha hb
      obtain ⟨p1, hp1, rfl⟩ := ha
      obtain ⟨p2, hp2, rfl⟩ := hb
      rw [(hnew_mem p2 hp2).2.2.2]
      rcases List.mem_append.mp hp1 with h | h
      · exact Nat.le_succ_of_le (hds_le p1 h)
      · rcases List.mem_cons.mp h with h2 | h2
        · rw [h2]
          omega
        · exact hrest_le p1 h2
  · intro p hp r hr
    rcases List.mem_append.mp hp with h1 | h1 <;>
      rcases List.mem_append.mp hr with h2 | h2
    · exact inv.gap p (List.mem_cons_of_mem _ h1) r (List.mem_cons_of_mem _ h2)
    · rw [(hnew_mem r h2).2.2.2]
      have := hrest_le p h1
      omega
    · rw [(hnew_mem p h1).2.2.2]
      have := hrest_ge r h2
      omega
    · rw [(hnew_mem p h1).2.2.2, (hnew_mem r h2).2.2.2]
      omega
  · intro n
    induction n using Nat.strong_induction_on with
    | _ n IH =>
      intro x hrx hn
      rcases inv.complete n x hrx hn with hx | ⟨p, hp, k, hk1, hkr, hkb⟩
      · exact Or.inl ((hviff x).mpr (Or.inl hx))
      · rcases List.mem_cons.mp hp with hph | hprest
        · -- the witness is the dequeued head
          rw [hph] at hkr hkb
          simp only at hkr hkb
          obtain ⟨c1, hc1, hm1, hrest1⟩ := reachFrom_head hkr
          have hc1v : c1 ∈
              (enqueueChildren (getChildren cm uid) (d0 + 1) vis rest).1 := by
            by_cases h : c1 ∈ vis
            · exact (hviff c1).mpr (Or.inl h)
            · exact (hviff c1).mpr
                (Or.inr ⟨d0 + 1, (hniff (c1, d0 + 1)).mpr ⟨hc1, hm1, h, rfl⟩⟩)
          rcases hrest1 with ⟨hk1eq, rfl⟩ | ⟨k2, hkeq, hk2_1, hr2⟩
          · exact Or.inl hc1v
          · subst hkeq
            by_cases hc1vis : c1 ∈ vis
            · rcases inv.vis_cover c1 hc1vis with hseed | ⟨d1, hd1⟩
              · have hrN : ReachN cm seeds k2 x := reachN_of_seed hseed hr2
                rcases IH k2 (by omega) x hrN (by omega) with h | ⟨p2, hp2, k3, h31, h3r, h3b⟩
                · exact Or.inl h
                · exact Or.inr ⟨p2, hp2, k3, h31, h3r, by omega⟩
              · rcases List.mem_append.mp hd1 with hds | hq
                · -- processed earlier, at depth d1 ≤ d0
                  have hle := hds_le (c1, d1) hds
                  simp only at hle
                  have hs1 : ReachN cm seeds d1 c1 :=
                    inv.sound (c1, d1) (List.mem_append_left _ hds)
                  have hrN : ReachN cm seeds (d1 + k2) x :=
                    reachN_comp cm seeds hr2 d1 hs1
                  rcases IH (d1 + k2) (by omega) x hrN (by omega) with h | ⟨p2, hp2, k3, h31, h3r, h3b⟩
                  · exact Or.inl h
                  · exact Or.inr ⟨p2, hp2, k3, h31, h3r, by omega⟩
                · rcases List.mem_cons.mp hq with hhd | hrest2
                  · -- c1 is the dequeued node itself
                    have hc1uid : c1 = uid ∧ d1 = d0 := by
                      have h1 := congrArg Prod.fst hhd
                      have h2 := congrArg Prod.snd hhd
                      exact ⟨h1, h2⟩
                    obtain ⟨rfl, rfl⟩ := hc1uid
                    have hrN : ReachN cm seeds (d1 + k2) x :=
                      reachN_comp cm seeds hr2 d1 hsound0
                    rcases IH (d1 + k2) (by omega) x hrN (by omega) with h | ⟨p2, hp2, k3, h31, h3r, h3b⟩
                    · exact Or.inl h
                    · exact Or.inr ⟨p2, hp2, k3, h31, h3r, by omega⟩
                  · -- c1 is still queued, at depth d1 ≤ d0 + 1
                    have hle : d1 ≤ d0 + 1 := hrest_le (c1, d1) hrest2
                    exact Or.inr ⟨(c1, d1), List.mem_append_left _ hrest2, k2,
                      hk2_1, hr2, by omega⟩
            · -- c1 was enqueued just now at depth d0 + 1
              have hmemnew : (c1, d0 + 1) ∈ new :=
                (hniff (c1, d0 + 1)).mpr ⟨hc1, hm1, hc1vis, rfl⟩
              exact Or.inr ⟨(c1, d0 + 1), List.mem_append_right _ hmemnew, k2,
                hk2_1, hr2, by omega⟩
        · exact Or.inr ⟨p, List.mem_append_left _ hprest, k, hk1, hkr, hkb⟩



theorem pairwise_le_of_const (d : Nat) : ∀ (bs : List Nat),
    (∀ b ∈ bs, b = d) → bs.Pairwise (· ≤ ·) := by
  intro bs hcst
  induction bs with
  | nil => exact List.Pairwise.nil
  | cons a bs2 ih =>
    refine List.Pairwise.cons ?_ (ih fun b hb => hcst b (List.mem_cons_of_mem a hb))
    intro b hb
    rw [hcst a (List.mem_cons_self a bs2), hcst b (List.mem_cons_of_mem a hb)]

theorem bfsLoop_final (cm : ChildMap) (seeds : List String) (maxd : Nat) :
    ∀ (fuel : Nat) (vis : List String) (q ds out : List (String × Nat)),
    BfsInv cm seeds maxd vis q ds →
    bfsLoop cm maxd fuel vis q ds = some out →
    (∀ p ∈ out, p.1 ∉ seeds ∧ isModelId p.1 = true ∧ 1 ≤ p.2 ∧
      p.2 ≤ max maxd 1 ∧ ReachN cm seeds p.2 p.1) ∧
    (out.map Prod.fst).Nodup ∧
    (∀ n x, ReachN cm seeds n x → n ≤ max maxd 1 → x ∉ seeds →
      ∃ d, (x, d) ∈ out) := by
  have base : ∀ (vis : List String) (ds out : List (String × Nat)),
      BfsInv cm seeds maxd vis [] ds → ds = out →
      (∀ p ∈ out, p.1 ∉ seeds ∧ isModelId p.1 = true ∧ 1 ≤ p.2 ∧
        p.2 ≤ max maxd 1 ∧ ReachN cm seeds p.2 p.1) ∧
      (out.map Prod.fst).Nodup ∧
      (∀ n x, ReachN cm seeds n x → n ≤ max maxd 1 → x ∉ seeds →
        ∃ d, (x, d) ∈ out) := by
    intro vis ds out inv hdo
    subst hdo
    have hds : ds ++ ([] : List (String × Nat)) = ds := List.append_nil ds
    refine ⟨?_, ?_, ?_⟩
    · intro p hp
      have hp2 : p ∈ ds ++ ([] : List (String × Nat)) := by rw [hds]; exact hp
      obtain ⟨hv, hs, hm⟩ := inv.elems p hp2
      obtain ⟨hb1, hb2⟩ := inv.bounds p hp2
      exact ⟨hs, hm, hb1, hb2, inv.sound p hp2⟩
    · have := inv.nodups
      rw [hds] at this
      exact this
    · intro n x hr hn hxs
      rcases inv.complete n x hr hn with hv | ⟨p, hp, _⟩
      · rcases inv.vis_cover x hv with h | ⟨d, hd⟩
        · exact absurd h hxs
        · rw [hds] at hd
          exact ⟨d, hd⟩
      · exact absurd hp (List.not_mem_nil p)
  intro fuel
  induction fuel with
  | zero =>
    intro vis q ds out inv heq
    match q with
    | [] =>
      have h2 : bfsLoop cm maxd 0 vis [] ds = some ds := rfl
      rw [h2] at heq
      exact base vis ds out inv (Option.some.inj heq)
    | (uid, d0) :: rest =>
      have h2 : bfsLoop cm maxd 0 vis ((uid, d0) :: rest) ds = none := rfl
      rw [h2] at heq
      exact absurd heq (by simp)
  | succ fuel ih =>
    intro vis q ds out inv heq
    match q with
    | [] =>
      have h2 : bfsLoop cm maxd (fuel + 1) vis [] ds = some ds := rfl
      rw [h2] at heq
      exact base vis ds out inv (Option.some.inj heq)
    | (uid, d0) :: rest =>
      have hunfold : bfsLoop cm maxd (fuel + 1) vis ((uid, d0) :: rest) ds =
          (if maxd ≤ d0 then
            bfsLoop cm maxd fuel vis rest (ds ++ [(uid, d0)])
          else
            bfsLoop cm maxd fuel
              (enqueueChildren (getChildren cm uid) (d0 + 1) vis rest).1
              (enqueueChildren (getChildren cm uid) (d0 + 1) vis rest).2
              (ds ++ [(uid, d0)])) := rfl
      rw [hunfold] at heq
      by_cases hd : maxd ≤ d0
      · rw [if_pos hd] at heq
        exact ih vis rest (ds ++ [(uid, d0)]) out (bfsInv_step_skip inv hd) heq
      · rw [if_neg hd] at heq
        exact ih _ _ (ds ++ [(uid, d0)]) out
          (bfsInv_step_expand inv (by omega)) heq

theorem bfsInv_init (cm : ChildMap) (seeds : List String) (maxd : Nat) :
    BfsInv cm seeds maxd (initQueue cm seeds seeds []).1
      (initQueue cm seeds seeds []).2 [] := by
  obtain ⟨new, heq, hviff, hmem, hcover, hnd⟩ := initQueue_spec cm seeds seeds []
  have hq : (initQueue cm seeds seeds []).2 = new := by
    rw [heq]
    simp
  refine ⟨?_, ?_, ?_, ?_, ?_, ?_, ?_, ?_, ?_⟩
  · intro s hs
    exact (hviff s).mpr (Or.inl hs)
  · intro v hv
    rcases (hviff v).mp hv with h | ⟨d, hd⟩
    · exact Or.inl h
    · refine Or.inr ⟨d, ?_⟩
      rw [List.nil_append, hq]
      exact hd
  · intro p hp
    rw [List.nil_append, hq] at hp
    obtain ⟨h1, h2, h3, s2, hs2, hc2⟩ := hmem p hp
    refine ⟨(hviff p.1).mpr (Or.inr ⟨p.2, ?_⟩), h3, h2⟩
    rw [show (p.1, p.2) = p from rfl]
    exact hp
  · rw [List.nil_append, hq]
    exact hnd
  · intro p hp
    rw [List.nil_append, hq] at hp
    have h1 := (hmem p hp).1
    rw [h1]
    omega
  · intro p hp
    rw [List.nil_append, hq] at hp
    obtain ⟨h1, h2, h3, s2, hs2, hc2⟩ := hmem p hp
    rw [h1]
    exact ⟨s2, hs2, ReachFrom.single hc2 h2⟩
  · rw [List.nil_append, hq]
    apply pairwise_le_of_const 1
    intro b hb
    rw [List.mem_map] at hb
    obtain ⟨p, hp, rfl⟩ := hb
    exact (hmem p hp).1
  · intro p hp r hr
    rw [hq] at hp hr
    rw [(hmem p hp).1]
    omega
  · intro n
    induction n using Nat.strong_induction_on with
    | _ n IH =>
      intro x hrx hn
      obtain ⟨s, hs, hr⟩ := hrx
      obtain ⟨c1, hc1, hm1, hrest1⟩ := reachFrom_head hr
      have hc1v : c1 ∈ (initQueue cm seeds seeds []).1 := hcover s hs c1 hc1 hm1
      rcases hrest1 with ⟨_, rfl⟩ | ⟨k2, hkeq, hk21, hr2⟩
      · exact Or.inl hc1v
      · subst hkeq
        rcases (hviff c1).mp hc1v with hseed | ⟨d1, hd1⟩
        · have hrN : ReachN cm seeds k2 x := ⟨c1, hseed, hr2⟩
          rcases IH k2 (by omega) x hrN (by omega) with h | ⟨p2, hp2, k3, h31, h3r, h3b⟩
          · exact Or.inl h
          · exact Or.inr ⟨p2, hp2, k3, h31, h3r, by omega⟩
        · have hd1v : d1 = 1 := (hmem (c1, d1) hd1).1
          refine Or.inr ⟨(c1, d1), ?_, k2, hk21, hr2, ?_⟩
          · rw [hq]
            exact hd1
          · simp only [hd1v]
            omega

theorem blast_spec (cm : ChildMap) (seeds : List String) (maxd : Nat) :
    ∃ out : List (String × Nat),
    compute_blast_radius cm seeds maxd =
      List.insertionSort (fun a b => strLe a b = true) (out.map Prod.fst) ∧
    (∀ p ∈ out, p.1 ∉ seeds ∧ isModelId p.1 = true ∧ 1 ≤ p.2 ∧
      p.2 ≤ max maxd 1 ∧ ReachN cm seeds p.2 p.1) ∧
    (out.map Prod.fst).Nodup ∧
    (∀ n x, ReachN cm seeds n x → n ≤ max maxd 1 → x ∉ seeds →
      ∃ d, (x, d) ∈ out) := by
  obtain ⟨out, hout⟩ :=
    Option.isSome_iff_exists.mp (c6_blast_terminates cm seeds maxd)
  have hfin := bfsLoop_final cm seeds maxd (totalChildren cm) _ _ _ out
    (bfsInv_init cm seeds maxd) hout
  refine ⟨out, ?_, hfin.1, hfin.2.1, hfin.2.2⟩
  have hz : compute_blast_radius cm seeds maxd =
      (match bfsLoop cm maxd (totalChildren cm) (initQueue cm seeds seeds []).1
          (initQueue cm seeds seeds []).2 [] with
        | some downstream =>
          List.insertionSort (fun a b => strLe a b = true) (downstream.map Prod.fst)
        | none => []) := rfl
  rw [hz, hout]

theorem blast_mem (cm : ChildMap) (seeds : List String) (maxd : Nat)
    (x : String) :
    x ∈ compute_blast_radius cm seeds maxd ↔
      (x ∉ seeds ∧ ∃ n, 1 ≤ n ∧ n ≤ max maxd 1 ∧ ReachN cm seeds n x) := by
  obtain ⟨out, hcbr, helems, hnd, hcomp⟩ := blast_spec cm seeds maxd
  rw [hcbr]
  rw [(List.perm_insertionSort (fun a b => strLe a b = true) (out.map Prod.fst)).mem_iff]
  constructor
  · intro hx
    rw [List.mem_map] at hx
    obtain ⟨p, hp, rfl⟩ := hx
    obtain ⟨h1, h2, h3, h4, h5⟩ := helems p hp
    exact ⟨h1, p.2, h3, h4, h5⟩
  · rintro ⟨hxs, n, h1, h2, hr⟩
    obtain ⟨d, hd⟩ := hcomp n x hr h2 hxs
    exact List.mem_map.mpr ⟨(x, d), hd, rfl⟩



theorem lexLt_iff : ∀ (as bs : List Char),
    lexLt as bs = true ↔ List.Lex (· < ·) as bs := by
  intro as
  induction as with
  | nil =>
    intro bs
    cases bs with
    | nil =>
      refine iff_of_false (by simp [lexLt]) ?_
      intro h
      cases h
    | cons b bs2 =>
      exact iff_of_true (by simp [lexLt]) List.Lex.nil
  | cons a as2 ih =>
    intro bs
    cases bs with
    | nil =>
      refine iff_of_false (by simp [lexLt]) ?_
      intro h
      cases h
    | cons b bs2 =>
      have hunfold : lexLt (a :: as2) (b :: bs2) =
          (if a < b then true else if b < a then false else lexLt as2 bs2) := rfl
      by_cases h1 : a < b
      · refine iff_of_true (by rw [hunfold, if_pos h1]) (List.Lex.rel h1)
      · by_cases h2 : b < a
        · refine iff_of_false (by rw [hunfold, if_neg h1, if_pos h2]; simp) ?_
          intro h
          cases h with
          | cons h3 => exact lt_irrefl _ h2
          | rel h3 => exact h1 h3
        · have hab : a = b := le_antisymm (not_lt.mp h2) (not_lt.mp h1)
          subst hab
          rw [hunfold, if_neg h1, if_neg h2]
          rw [ih bs2]
          constructor
          · intro h
            exact List.Lex.cons h
          · intro h
            cases h with
            | cons h3 => exact h3
            | rel h3 => exact absurd h3 h1

theorem strLt_iff (a b : String) : strLt a b = true ↔ a < b := by
  rw [String.lt_iff_toList_lt]
  exact lexLt_iff a.data b.data

theorem strLe_iff (a b : String) : strLe a b = true ↔ a ≤ b := by
  constructor
  · intro h
    rw [← not_lt]
    intro hlt
    have h2 := (strLt_iff b a).mpr hlt
    rw [strLe, h2] at h
    simp at h
  · intro h
    rw [strLe]
    cases hx : strLt b a with
    | false => rfl
    | true =>
      have h2 := (strLt_iff b a).mp hx
      exact absurd h2 (not_lt.mpr h)

/-- C4: for every child-adjacency map, seed set and depth bound, the
blast-radius result excludes every seed id, contains only `model.`-prefixed
ids, and is strictly ascending (sorted with no duplicates). -/
theorem c4_blast_structure (cm : ChildMap) (seeds : List String) (maxd : Nat) :
    (∀ x ∈ compute_blast_radius cm seeds maxd,
      x ∉ seeds ∧ isModelId x = true) ∧
    (compute_blast_radius cm seeds maxd).Sorted (· < ·) ∧
    (compute_blast_radius cm seeds maxd).Nodup := by
  obtain ⟨out, hcbr, helems, hnd, hcomp⟩ := blast_spec cm seeds maxd
  have hperm := List.perm_insertionSort (fun a b => strLe a b = true)
    (out.map Prod.fst)
  have hnodup : (compute_blast_radius cm seeds maxd).Nodup := by
    rw [hcbr]
    exact hperm.nodup_iff.mpr hnd
  haveI htot : IsTotal String (fun a b => strLe a b = true) := ⟨by
    intro a b
    rcases le_total a b with h | h
    · exact Or.inl ((strLe_iff a b).mpr h)
    · exact Or.inr ((strLe_iff b a).mpr h)⟩
  haveI htrans : IsTrans String (fun a b => strLe a b = true) := ⟨by
    intro a b c hab hbc
    exact (strLe_iff a c).mpr
      (le_trans ((strLe_iff a b).mp hab) ((strLe_iff b c).mp hbc))⟩
  have hsorted : (compute_blast_radius cm seeds maxd).Sorted
      (fun a b => strLe a b = true) := by
    rw [hcbr]
    exact List.sorted_insertionSort _ _
  have hsortedLe : (compute_blast_radius cm seeds maxd).Sorted (· ≤ ·) :=
    hsorted.imp (fun h => (strLe_iff _ _).mp h)
  refine ⟨?_, ?_, hnodup⟩
  · intro x hx
    obtain ⟨hxs, n, h1, h2, hr⟩ := (blast_mem cm seeds maxd x).mp hx
    exact ⟨hxs, reachN_target_model hr⟩
  · have hand := List.Pairwise.and hsortedLe hnodup
    exact hand.imp (fun h => lt_of_le_of_ne h.1 h.2)

/-- C5 as stated is false at depth bound 0: with the adjacency map
`{model.A: [model.B]}` and seed `model.A`, node `model.B` has shortest
model-edge distance 1 from the seeds, which exceeds the depth bound 0, yet
it appears in the blast-radius result (seed children are enqueued before
the depth bound is consulted). -/
theorem c5_counterexample :
    distGt [("model.A", ["model.B"])] ["model.A"] "model.B" 0 ∧
    "model.B" ∈ compute_blast_radius [("model.A", ["model.B"])] ["model.A"] 0 := by
  constructor
  · intro e he
    rcases he with ⟨he0, hmem⟩ | ⟨hns, hr, hmin⟩
    · simp at hmem
    · have := reachN_one_le hr
      omega
  · decide

/-- C5 amended: for every child-adjacency map, seed set and depth bound
`d ≥ 1`, a node whose shortest model-edge distance from the seeds exceeds
`d` is absent from the blast-radius result, and a model node at exactly
distance `d` is present. -/
theorem c5_depth_bound (cm : ChildMap) (seeds : List String) (d : Nat)
    (x : String) (hd : 1 ≤ d) :
    (distGt cm seeds x d → x ∉ compute_blast_radius cm seeds d) ∧
    (distEq cm seeds x d → x ∈ compute_blast_radius cm seeds d) := by
  have hmax : max d 1 = d := by omega
  constructor
  · intro hgt hx
    obtain ⟨hxs, n, h1, h2, hr⟩ := (blast_mem cm seeds d x).mp hx
    rw [hmax] at h2
    have hex : ∃ m, ReachN cm seeds m x := ⟨n, hr⟩
    classical
    let m0 := Nat.find hex
    have hm0 : ReachN cm seeds m0 x := Nat.find_spec hex
    have hmin : ∀ m, ReachN cm seeds m x → m0 ≤ m := by
      intro m hm
      exact Nat.find_le hm
    have hdeq : distEq cm seeds x m0 := Or.inr ⟨hxs, hm0, hmin⟩
    have hlt := hgt m0 hdeq
    have := hmin n hr
    omega
  · intro heq
    rcases heq with ⟨he0, hmem⟩ | ⟨hns, hr, hmin⟩
    · omega
    · refine (blast_mem cm seeds d x).mpr ⟨hns, d, reachN_one_le hr, ?_, hr⟩
      rw [hmax]

/-- Witness for the amended C5 at a concrete graph: with map
`{model.A: [model.B]}`, seed `model.A` and depth bound 1, node `model.B`
(at distance exactly 1) is present, and the unreachable node `model.C` is
absent. -/
theorem c5_witness :
    "model.B" ∈ compute_blast_radius [("model.A", ["model.B"])] ["model.A"] 1 ∧
    "model.C" ∉ compute_blast_radius [("model.A", ["model.B"])] ["model.A"] 1 := by
  constructor
  · apply (c5_depth_bound [("model.A", ["model.B"])] ["model.A"] 1 "model.B"
      (by decide)).2
    refine Or.inr ⟨by decide, ⟨"model.A", by decide,
      ReachFrom.single (by decide) (by decide)⟩, ?_⟩
    intro m hm
    exact reachN_one_le hm
  · apply (c5_depth_bound [("model.A", ["model.B"])] ["model.A"] 1 "model.C"
      (by decide)).1
    intro e he
    rcases he with ⟨he0, hmem⟩ | ⟨hns, hr, hmin⟩
    · simp at hmem
    · exfalso
      obtain ⟨s, hs, hrf⟩ := hr
      have := reachFrom_target_child hrf
      simp [allChildren] at this

/-- Witness for C4 at a concrete graph, applying the structural theorem. -/
theorem c4_witness :
    ("model.B" ∉ (["model.A"] : List String) ∧ isModelId "model.B" = true) ∧
    (compute_blast_radius [("model.A", ["model.B", "model.C"]), ("model.B", ["model.C"])]
      ["model.A"] 10).Sorted (· < ·) := by
  constructor
  · exact (c4_blast_structure [("model.A", ["model.B", "model.C"]), ("model.B", ["model.C"])]
      ["model.A"] 10).1 "model.B" (by decide)
  · exact (c4_blast_structure [("model.A", ["model.B", "model.C"]), ("model.B", ["model.C"])]
      ["model.A"] 10).2.1


end Guardrail
